import Mathlib

/-!
Shallow embedding of the moment-scoring / clip-selection / subtitle pipeline
of `clip_generator.py` (class `TwitchClipGenerator`), together with the
configuration module `config.py` and the job-status logic of `app.py`.

Python floats are modelled as exact rationals (`ℚ`); Python strings as `String`
with character-level helpers mirroring Python's `in`, `str.lower` (ASCII range,
the only range exercised by the texts involved) and `str.strip`.
The dictionary field `"end"` is embedded as the field `stop`, since `end` is a
reserved word in Lean.
-/

namespace ClipGen

/-- Python `needle` is a prefix of `hay` (character lists). -/
def isPrefixB : List Char → List Char → Bool
  | [], _ => true
  | _ :: _, [] => false
  | a :: as, b :: bs => a == b && isPrefixB as bs

/-- Python substring test `needle in hay` on character lists. -/
def isInfixB (needle : List Char) : List Char → Bool
  | [] => needle.isEmpty
  | c :: rest => isPrefixB needle (c :: rest) || isInfixB needle rest

/-- Python `needle in hay` for strings. -/
def strContains (hay needle : String) : Bool :=
  isInfixB needle.data hay.data

/-- Python's default whitespace for `str.strip` (ASCII part). -/
def pyIsSpace (c : Char) : Bool :=
  c == ' ' || c == '\t' || c == '\n' || c == '\r' || c == '\x0b' || c == '\x0c'

/-- Python `str.strip()`. -/
def pyStrip (s : String) : String :=
  String.mk (((s.data.dropWhile pyIsSpace).reverse.dropWhile pyIsSpace).reverse)

/-- Python `str.lower` on one character (ASCII range). -/
def pyLowerChar (c : Char) : Char :=
  if 'A' ≤ c && c ≤ 'Z' then Char.ofNat (c.toNat + 32) else c

/-- Python `str.lower` (ASCII range). -/
def pyLower (s : String) : String :=
  String.mk (s.data.map pyLowerChar)

/-- Python `sep.join(l)`. -/
def pyJoin (sep : String) : List String → String
  | [] => ""
  | [s] => s
  | s :: rest => s ++ sep ++ pyJoin sep rest

/-- A Whisper transcript segment: `{start, end, text}` (the source's `end`
field is named `stop` here, `end` being reserved in Lean). -/
structure Segment where
  start : ℚ
  stop : ℚ
  text : String
deriving Repr, DecidableEq

/-- The `reason` tag attached to moments and clips in `find_viral_moments`. -/
inductive Reason where
  | high_energy
  | reaction_gap
deriving Repr, DecidableEq

/-- A candidate moment dict produced by `find_viral_moments` (methods 1 and 2). -/
structure Moment where
  start : ℚ
  stop : ℚ
  text : String
  energy_score : ℕ
  reason : Reason
deriving Repr, DecidableEq

/-- A selected clip dict produced by `find_viral_moments` (method 3). -/
structure Clip where
  start : ℚ
  stop : ℚ
  duration : ℚ
  text : String
  segments : List Segment
  reason : Reason
deriving Repr, DecidableEq

/-- The `energy_words` list hard-coded in `find_viral_moments`
(clip_generator.py line 144). -/
def energyWords : List String :=
  ["wow", "omg", "insane", "crazy", "no way", "let\x27s go",
   "pog", "holy", "what", "unbelievable", "clutch"]

/-- The laughter pattern list hard-coded in `find_viral_moments`
(clip_generator.py line 158). -/
def laughterWords : List String := ["haha", "lol", "lmao"]

/-- The energy score of one segment (clip_generator.py lines 148-159):
count of energy words present in the lowered text, plus 2 if the raw text
contains `!`, plus 1 if any laughter pattern is present. -/
def energyScore (seg : Segment) : ℕ :=
  let text := pyLower seg.text
  let s1 := (energyWords.filter (fun w => strContains text w)).length
  let s2 := if strContains seg.text "!" then s1 + 2 else s1
  if laughterWords.any (fun l => strContains text l) then s2 + 1 else s2

/-- Method 1 of `find_viral_moments` (lines 147-168): a `high_energy` moment
per segment scoring at least 2. -/
def energyMoments (segments : List Segment) : List Moment :=
  segments.filterMap (fun seg =>
    let score := energyScore seg
    if 2 ≤ score then
      some { start := seg.start, stop := seg.stop, text := seg.text,
             energy_score := score, reason := Reason.high_energy }
    else none)

/-- Method 2 of `find_viral_moments` (lines 171-184): a `reaction_gap` moment
per adjacent pair whose gap lies in the closed interval [1, 3]. -/
def gapMoments : List Segment → List Moment
  | [] => []
  | [_] => []
  | a :: b :: rest =>
    (if 1 ≤ b.start - a.stop ∧ b.start - a.stop ≤ 3 then
      [{ start := a.stop, stop := b.start, text := "[reaction moment]",
         energy_score := 1, reason := Reason.reaction_gap }]
    else []) ++ gapMoments (b :: rest)

/-- The full moment list handed to method 3: method 1's appends followed by
method 2's appends. -/
def scoreMoments (segments : List Segment) : List Moment :=
  energyMoments segments ++ gapMoments segments

/-- One step of a stable descending insertion sort: the new moment goes after
every element whose score is at least its own, reproducing the behaviour of
Python's stable `sorted(moments, key=score, reverse=True)`. -/
def insertDesc (m : Moment) : List Moment → List Moment
  | [] => [m]
  | x :: xs =>
    if m.energy_score ≤ x.energy_score then x :: insertDesc m xs
    else m :: x :: xs

/-- Stable sort of the moments by descending `energy_score`
(`sorted(moments, key=lambda x: x["energy_score"], reverse=True)`, line 190). -/
def sortDesc (l : List Moment) : List Moment :=
  l.foldl (fun acc m => insertDesc m acc) []

/-- Python `max(a, b)` (first argument wins ties). -/
def pymax (a b : ℚ) : ℚ := if a < b then b else a

/-- Python `min(a, b)` (first argument wins ties). -/
def pymin (a b : ℚ) : ℚ := if b < a then b else a

/-- `segments[-1]["end"] if segments else fallback` (line 202). -/
def lastStopOr (segments : List Segment) (fallback : ℚ) : ℚ :=
  match segments.getLast? with
  | some s => s.stop
  | none => fallback

/-- Duration floor (lines 198-202): if the candidate is shorter than
`min_duration`, extend symmetrically, clamping at 0 on the left and at the
last segment's end (fallback `end + 30` on an empty transcript) on the right. -/
def floorWindow (segments : List Segment) (minD s e : ℚ) : ℚ × ℚ :=
  if e - s < minD then
    (pymax 0 (s - (minD - (e - s)) / 2),
     pymin (lastStopOr segments (e + 30)) (e + (minD - (e - s)) / 2))
  else (s, e)

/-- Duration ceiling (lines 205-206): truncate the tail to `start + max_duration`. -/
def capWindow (maxD : ℚ) (p : ℚ × ℚ) : ℚ × ℚ :=
  if maxD < p.2 - p.1 then (p.1, p.1 + maxD) else p

/-- The overlap test of line 211: `not (end < clip["start"] or start > clip["end"])`. -/
def overlapsB (s e : ℚ) (c : Clip) : Bool :=
  ! (decide (e < c.start) || decide (s > c.stop))

/-- The segment-gathering test of line 219:
`start <= s["start"] <= end or start <= s["end"] <= end`. -/
def segPred (s e : ℚ) (seg : Segment) : Bool :=
  decide ((s ≤ seg.start ∧ seg.start ≤ e) ∨ (s ≤ seg.stop ∧ seg.stop ≤ e))

/-- The clip a moment would produce (lines 194-230, acceptance aside):
normalized bounds, gathered segments, space-joined stripped text. -/
def buildClip (segments : List Segment) (minD maxD : ℚ) (m : Moment) : Clip :=
  let p := capWindow maxD (floorWindow segments minD m.start m.stop)
  let clipSegs := segments.filter (segPred p.1 p.2)
  { start := p.1, stop := p.2, duration := p.2 - p.1,
    text := pyStrip (pyJoin " " (clipSegs.map Segment.text)),
    segments := clipSegs, reason := m.reason }

/-- Method 3's greedy loop (lines 190-230): moments in descending-score order,
stop once 5 clips are accepted, skip a candidate overlapping an accepted clip. -/
def selectLoop (segments : List Segment) (minD maxD : ℚ) :
    List Moment → List Clip → List Clip
  | [], clips => clips
  | m :: rest, clips =>
    if 5 ≤ clips.length then clips
    else
      let c := buildClip segments minD maxD m
      if clips.any (fun cl => overlapsB c.start c.stop cl) then
        selectLoop segments minD maxD rest clips
      else
        selectLoop segments minD maxD rest (clips ++ [c])

/-- The selector run on an arbitrary moment list. -/
def selectClips (segments : List Segment) (minD maxD : ℚ)
    (moments : List Moment) : List Clip :=
  selectLoop segments minD maxD (sortDesc moments) []

/-- `find_viral_moments` (lines 131-233). -/
def findViralMoments (segments : List Segment) (minD maxD : ℚ) : List Clip :=
  if segments.isEmpty then []
  else selectClips segments minD maxD (scoreMoments segments)

/-- The selection as seen by `process_vod` (line 368): the clip list truncated
to `clips[:max_clips]`. -/
def processVodSelect (segments : List Segment) (minD maxD : ℚ)
    (maxClips : ℕ) : List Clip :=
  (findViralMoments segments minD maxD).take maxClips

/-- Zero-pad a natural number to two digits (Python `f"{n:02d}"` for `n ≥ 0`). -/
def pad2 (n : ℕ) : String :=
  if n < 10 then "0" ++ toString n else toString n

/-- Zero-pad a natural number to three digits (Python `f"{n:03d}"` for `n ≥ 0`). -/
def pad3 (n : ℕ) : String :=
  if n < 10 then "00" ++ toString n
  else if n < 100 then "0" ++ toString n
  else toString n

/-- `_format_time` (lines 310-316): `timedelta(seconds=q)` keeps whole
microseconds (modelled with round-half-up at the half-microsecond tie, where
CPython rounds half-even) and normalizes `seconds` into [0, 86400); hours,
minutes, seconds are carved out of `td.seconds`, milliseconds out of
`td.microseconds` by truncation. -/
def formatTime (q : ℚ) : String :=
  let totalMicro : ℤ := ⌊q * 1000000 + 1/2⌋
  let micro : ℕ := (totalMicro.emod 1000000).toNat
  let secs : ℕ := ((totalMicro.ediv 1000000).emod 86400).toNat
  pad2 (secs / 3600) ++ ":" ++ pad2 (secs % 3600 / 60) ++ ":" ++
    pad2 (secs % 60) ++ "," ++ pad3 (micro / 1000)

/-- One emitted SRT caption block: its number line, its two formatted boundary
timestamps, and its text line. -/
structure SrtBlock where
  idx : ℕ
  startStr : String
  stopStr : String
  text : String
deriving Repr, DecidableEq

/-- The loop body of `_create_srt` (lines 297-308): `enumerate(segments, 1)`
advances the counter on every segment, emitted or skipped. -/
def createSrtAux (off : ℚ) : ℕ → List Segment → List SrtBlock
  | _, [] => []
  | i, seg :: rest =>
    if seg.start - off < 0 ∨ pyStrip seg.text = "" then
      createSrtAux off (i + 1) rest
    else
      { idx := i, startStr := formatTime (seg.start - off),
        stopStr := formatTime (seg.stop - off),
        text := pyStrip seg.text } :: createSrtAux off (i + 1) rest

/-- `_create_srt(segments, path, offset)` as the list of caption blocks it
writes, in file order. -/
def createSrt (segments : List Segment) (off : ℚ) : List SrtBlock :=
  createSrtAux off 1 segments

/-- The JSON metadata sidecar written per successful clip
(`process_vod`, lines 384-393). -/
structure Meta where
  source : String
  start_time : ℚ
  end_time : ℚ
  duration : ℚ
  transcript : String
  reason : Reason
deriving Repr, DecidableEq

/-- The metadata record built from a clip (lines 386-393). -/
def mkMeta (src : String) (c : Clip) : Meta :=
  { source := src, start_time := c.start, end_time := c.stop,
    duration := c.duration, transcript := c.text, reason := c.reason }

/-- The render loop of `process_vod` (lines 368-393) with the per-window render
outcome abstracted as `ok : ℕ → Bool` (the external renderer is a black box):
every window is attempted in order; a success appends the clip and its
metadata sidecar; a failure is skipped. -/
def renderLoop (ok : ℕ → Bool) (src : String) : ℕ → List Clip → List (Clip × Meta)
  | _, [] => []
  | i, c :: rest =>
    if ok i then (c, mkMeta src c) :: renderLoop ok src (i + 1) rest
    else renderLoop ok src (i + 1) rest

/-- Terminal job states assigned by `process_job` in app.py. -/
inductive JobStatus where
  | completed
  | failed
deriving Repr, DecidableEq

/-- `process_job` (app.py lines 196-206): `completed` when the returned clip
list is non-empty, `failed` otherwise. -/
def jobStatus (results : List (Clip × Meta)) : JobStatus :=
  if results.isEmpty then JobStatus.failed else JobStatus.completed

/-- The detection-related contents of the configuration module `config.py`. -/
structure DetectionConfig where
  energy_words : List String
  laughter_patterns : List String
  exclamation_weight : ℕ
deriving Repr, DecidableEq

/-- `ENERGY_WORDS` from config.py (lines 25-35). -/
def configEnergyWords : List String :=
  ["wow", "omg", "oh my god", "holy", "what", "no way",
   "insane", "crazy", "wild", "nuts", "bonkers",
   "let\x27s go", "pog", "poggers", "clutch", "sick",
   "unbelievable", "incredible", "amazing", "awesome",
   "destroyed", "wrecked", "demolished", "owned",
   "lmao", "haha", "lol", "dead", "dying",
   "wait", "hold up", "stop", "pause",
   "perfect", "clean", "smooth", "nasty"]

/-- `LAUGHTER_PATTERNS` from config.py (line 38). -/
def configLaughterPatterns : List String :=
  ["haha", "hehe", "lol", "lmao", "lmfao", "rofl"]

/-- `EXCLAMATION_WEIGHT` from config.py (line 41). -/
def configExclamationWeight : ℕ := 2

/-- The configuration module as shipped. -/
def defaultDetectionConfig : DetectionConfig :=
  { energy_words := configEnergyWords,
    laughter_patterns := configLaughterPatterns,
    exclamation_weight := configExclamationWeight }

/-- `find_viral_moments` in the presence of a (possibly edited) configuration
module state: clip_generator.py contains no `import config`, so the detection
pipeline never reads `cfg` — the parameter records the module state an edit of
config.py would produce, and the body records that the source ignores it. -/
def findViralMomentsWithConfig (_cfg : DetectionConfig)
    (segments : List Segment) (minD maxD : ℚ) : List Clip :=
  findViralMoments segments minD maxD

/-- Number of occurrences of `needle` in a character list: one per starting
position at which `needle` is a prefix of the remaining suffix. Stated from the
claim's words (score "+1 per occurrence"), for comparison with the source's
presence count. -/
def occCount (needle : List Char) : List Char → ℕ
  | [] => if needle.isEmpty then 1 else 0
  | c :: rest => (if isPrefixB needle (c :: rest) then 1 else 0) + occCount needle rest

/-- The energy score as the examined claim words it: +1 per occurrence of each
energy phrase in the lowered text, +2 for an exclamation mark in the raw text,
+1 for a laughter pattern. -/
def claimedOccurrenceScore (seg : Segment) : ℕ :=
  ((energyWords.map (fun w => occCount w.data (pyLower seg.text).data)).sum)
  + (if strContains seg.text "!" then 2 else 0)
  + (if laughterWords.any (fun l => strContains (pyLower seg.text) l) then 1 else 0)

/-- The energy score stated over the mathematical substring relation: +1 per
configured energy phrase present in the lowered text (each phrase counted once
however often it occurs), +2 if the raw text contains `!`, +1 if some laughter
pattern is present. -/
def presenceScore (seg : Segment) : ℕ :=
  (energyWords.countP (fun w => decide (w.data <:+: (pyLower seg.text).data)))
  + (if '!' ∈ seg.text.data then 2 else 0)
  + (if ∃ l ∈ laughterWords, l.data <:+: (pyLower seg.text).data then 1 else 0)

/-- A sample one-segment transcript: "wow omg" scores 2 and survives
selection with both clamps active (start at 0, end at the segment end). -/
def sampleSeg : Segment := ⟨0, 2, "wow omg"⟩

/-- The clip the sample transcript produces under `minDuration = 15`,
`maxDuration = 60`. -/
def sampleClip : Clip := ⟨0, 2, 2, "wow omg", [sampleSeg], Reason.high_energy⟩

/-! Bridging lemmas: the executable Python-style string tests agree with the
mathematical prefix / infix / membership relations. -/

theorem isPrefixB_iff (n h : List Char) : isPrefixB n h = true ↔ n <+: h := by
  induction n generalizing h with
  | nil => simp [isPrefixB]
  | cons a as ih =>
    cases h with
    | nil => simp [isPrefixB]
    | cons b bs => simp [isPrefixB, ih, List.cons_prefix_cons, Bool.and_eq_true, beq_iff_eq]

theorem isInfixB_iff (n h : List Char) : isInfixB n h = true ↔ n <:+: h := by
  induction h with
  | nil => simp [isInfixB, List.isEmpty_iff]
  | cons c rest ih =>
    simp [isInfixB, isPrefixB_iff, ih, List.infix_cons_iff]

theorem strContains_iff (hay needle : String) :
    strContains hay needle = true ↔ needle.data <:+: hay.data :=
  isInfixB_iff _ _

theorem strContains_eq_decide (hay needle : String) :
    strContains hay needle = decide (needle.data <:+: hay.data) := by
  rw [Bool.eq_iff_iff, strContains_iff, decide_eq_true_eq]

theorem singleton_infix_iff (c : Char) (l : List Char) : [c] <:+: l ↔ c ∈ l := by
  constructor
  · rintro ⟨s, t, rfl⟩
    simp
  · intro hm
    obtain ⟨s, t, rfl⟩ := List.append_of_mem hm
    exact ⟨s, t, by simp⟩

/-- The source's presence count equals the claim-level presence score. -/
theorem energyScore_eq_presenceScore (seg : Segment) :
    energyScore seg = presenceScore seg := by
  have hw : (energyWords.filter (fun w => strContains (pyLower seg.text) w)) =
      (energyWords.filter (fun w => decide (w.data <:+: (pyLower seg.text).data))) := by
    apply List.filter_congr
    intro w _
    exact strContains_eq_decide _ _
  have hex : strContains seg.text "!" = decide ('!' ∈ seg.text.data) := by
    rw [Bool.eq_iff_iff, strContains_iff, decide_eq_true_eq]
    exact singleton_infix_iff '!' seg.text.data
  have hla : (laughterWords.any (fun l => strContains (pyLower seg.text) l)) =
      decide (∃ l ∈ laughterWords, l.data <:+: (pyLower seg.text).data) := by
    rw [Bool.eq_iff_iff, decide_eq_true_eq]
    simp only [List.any_eq_true, strContains_iff]
  simp only [energyScore, presenceScore, List.countP_eq_length_filter, hw, hex, hla,
    decide_eq_true_eq]
  split_ifs <;> omega

/-! Facts about the stable descending sort. -/

theorem mem_insertDesc (m x : Moment) (l : List Moment) :
    x ∈ insertDesc m l ↔ x = m ∨ x ∈ l := by
  induction l with
  | nil => simp [insertDesc]
  | cons a as ih =>
    by_cases h : m.energy_score ≤ a.energy_score
    · simp only [insertDesc, if_pos h, List.mem_cons, ih]
      tauto
    · simp [insertDesc, if_neg h]

theorem length_insertDesc (m : Moment) (l : List Moment) :
    (insertDesc m l).length = l.length + 1 := by
  induction l with
  | nil => rfl
  | cons a as ih =>
    by_cases h : m.energy_score ≤ a.energy_score
    · simp [insertDesc, if_pos h, ih]
    · simp [insertDesc, if_neg h]

theorem pairwise_insertDesc (m : Moment) (l : List Moment)
    (h : List.Pairwise (fun a b => b.energy_score ≤ a.energy_score) l) :
    List.Pairwise (fun a b => b.energy_score ≤ a.energy_score) (insertDesc m l) := by
  induction l with
  | nil => simp [insertDesc]
  | cons a as ih =>
    rcases List.pairwise_cons.mp h with ⟨ha, has⟩
    by_cases hc : m.energy_score ≤ a.energy_score
    · rw [insertDesc, if_pos hc]
      refine List.pairwise_cons.mpr ⟨?_, ih has⟩
      intro y hy
      rcases (mem_insertDesc m y as).mp hy with rfl | hy'
      · exact hc
      · exact ha y hy'
    · rw [insertDesc, if_neg hc]
      refine List.pairwise_cons.mpr ⟨?_, h⟩
      intro y hy
      rcases List.mem_cons.mp hy with rfl | hy'
      · exact le_of_lt (lt_of_not_le hc)
      · exact le_trans (ha y hy') (le_of_lt (lt_of_not_le hc))

theorem sortDesc_pairwise (l : List Moment) :
    List.Pairwise (fun a b => b.energy_score ≤ a.energy_score) (sortDesc l) := by
  have key : ∀ (l : List Moment) (acc : List Moment),
      List.Pairwise (fun a b => b.energy_score ≤ a.energy_score) acc →
      List.Pairwise (fun a b => b.energy_score ≤ a.energy_score)
        (l.foldl (fun acc m => insertDesc m acc) acc) := by
    intro l
    induction l with
    | nil => intro acc h; exact h
    | cons a as ih =>
      intro acc h
      exact ih (insertDesc a acc) (pairwise_insertDesc a acc h)
  exact key l [] List.Pairwise.nil

theorem sortDesc_length (l : List Moment) : (sortDesc l).length = l.length := by
  have key : ∀ (l : List Moment) (acc : List Moment),
      (l.foldl (fun acc m => insertDesc m acc) acc).length = acc.length + l.length := by
    intro l
    induction l with
    | nil => intro acc; rfl
    | cons a as ih =>
      intro acc
      rw [List.foldl_cons, ih (insertDesc a acc), length_insertDesc]
      simp only [List.length_cons]
      omega
  have := key l []
  simpa [sortDesc] using this

/-! Facts about the greedy selection loop. -/

/-- Every run of the selection loop appends the clips built from some
subsequence of the processed moments, in processing order; candidates are
dropped whole, never trimmed. -/
theorem selectLoop_spec (segments : List Segment) (minD maxD : ℚ) :
    ∀ (ms : List Moment) (clips : List Clip),
      ∃ acc : List Moment, List.Sublist acc ms ∧
        selectLoop segments minD maxD ms clips =
          clips ++ acc.map (buildClip segments minD maxD) := by
  intro ms
  induction ms with
  | nil =>
    intro clips
    exact ⟨[], List.nil_sublist [], by simp [selectLoop]⟩
  | cons m rest ih =>
    intro clips
    by_cases h5 : 5 ≤ clips.length
    · refine ⟨[], List.nil_sublist _, ?_⟩
      simp [selectLoop, if_pos h5]
    · by_cases hov : clips.any (fun cl =>
        overlapsB (buildClip segments minD maxD m).start
          (buildClip segments minD maxD m).stop cl) = true
      · obtain ⟨acc, hsub, heq⟩ := ih clips
        refine ⟨acc, hsub.cons m, ?_⟩
        rw [selectLoop, if_neg h5]
        simpa [hov] using heq
      · obtain ⟨acc, hsub, heq⟩ :=
          ih (clips ++ [buildClip segments minD maxD m])
        refine ⟨m :: acc, hsub.cons₂ m, ?_⟩
        rw [selectLoop, if_neg h5]
        simp only [Bool.not_eq_true] at hov
        simpa [hov, List.append_assoc] using heq

/-- The overlap test of the source is `false` exactly when the candidate lies
strictly before or strictly after the accepted clip. -/
theorem overlapsB_false_iff (s e : ℚ) (c : Clip) :
    overlapsB s e c = false ↔ e < c.start ∨ c.stop < s := by
  simp only [overlapsB, Bool.not_eq_false', Bool.or_eq_true, decide_eq_true_eq, gt_iff_lt]

/-- The selection loop preserves the invariant that every later clip was
checked not to overlap every earlier one. -/
theorem selectLoop_pairwise (segments : List Segment) (minD maxD : ℚ) :
    ∀ (ms : List Moment) (clips : List Clip),
      List.Pairwise (fun c1 c2 => overlapsB c2.start c2.stop c1 = false) clips →
      List.Pairwise (fun c1 c2 => overlapsB c2.start c2.stop c1 = false)
        (selectLoop segments minD maxD ms clips) := by
  intro ms
  induction ms with
  | nil =>
    intro clips h
    simpa [selectLoop] using h
  | cons m rest ih =>
    intro clips h
    by_cases h5 : 5 ≤ clips.length
    · simpa [selectLoop, if_pos h5] using h
    · rw [selectLoop, if_neg h5]
      by_cases hov : clips.any (fun cl =>
        overlapsB (buildClip segments minD maxD m).start
          (buildClip segments minD maxD m).stop cl) = true
      · simpa [hov] using ih clips h
      · simp only [Bool.not_eq_true] at hov
        simp only [hov, if_neg]
        refine ih _ (List.pairwise_append.mpr ⟨h, by simp, ?_⟩)
        intro a ha b hb
        rw [List.mem_singleton.mp hb]
        simpa using List.any_eq_false.mp hov a ha

/-- Python `max(0, x)` is either `x` or `0`; ditto `min`. -/
theorem pymax_cases (a b : ℚ) : pymax a b = a ∨ pymax a b = b := by
  unfold pymax
  split <;> simp

theorem pymin_cases (a b : ℚ) : pymin a b = a ∨ pymin a b = b := by
  unfold pymin
  split <;> simp

theorem pymax_eq_of_ne (a b : ℚ) (h : pymax a b ≠ a) : pymax a b = b := by
  rcases pymax_cases a b with h' | h'
  · exact absurd h' h
  · exact h'

theorem pymin_eq_of_ne (a b : ℚ) (h : pymin a b ≠ a) : pymin a b = b := by
  rcases pymin_cases a b with h' | h'
  · exact absurd h' h
  · exact h'

/-- A non-empty transcript has a last segment, and `lastStopOr` returns its
end regardless of the fallback. -/
theorem lastStopOr_nonempty (segments : List Segment) (h : segments ≠ []) :
    ∃ last, segments.getLast? = some last ∧ ∀ fb, lastStopOr segments fb = last.stop := by
  cases hg : segments.getLast? with
  | none => exact absurd (List.getLast?_eq_none_iff.mp hg) h
  | some s => exact ⟨s, rfl, fun fb => by simp [lastStopOr, hg]⟩

/-- The duration-floor step either reaches `minDuration`, or was clamped at 0
on the left, or was clamped at the transcript end on the right. -/
theorem floorWindow_spec (segments : List Segment) (minD s e : ℚ) :
    minD ≤ (floorWindow segments minD s e).2 - (floorWindow segments minD s e).1
    ∨ (floorWindow segments minD s e).1 = 0
    ∨ (floorWindow segments minD s e).2 = lastStopOr segments (e + 30) := by
  unfold floorWindow
  split
  · by_cases hshort : minD ≤
      (pymin (lastStopOr segments (e + 30)) (e + (minD - (e - s)) / 2))
        - (pymax 0 (s - (minD - (e - s)) / 2))
    · exact Or.inl hshort
    · by_cases h1 : pymax 0 (s - (minD - (e - s)) / 2) = 0
      · exact Or.inr (Or.inl h1)
      · right; right
        have h1' := pymax_eq_of_ne _ _ h1
        by_cases h2 : pymin (lastStopOr segments (e + 30)) (e + (minD - (e - s)) / 2)
            = lastStopOr segments (e + 30)
        · exact h2
        · exfalso
          have h2' := pymin_eq_of_ne _ _ h2
          apply hshort
          rw [h1', h2']
          ring_nf
          linarith
  · rename_i hge
    left
    simpa using not_lt.mp hge

theorem capWindow_fst (maxD : ℚ) (p : ℚ × ℚ) : (capWindow maxD p).1 = p.1 := by
  unfold capWindow
  split <;> rfl

theorem capWindow_diff_le (maxD : ℚ) (p : ℚ × ℚ) :
    (capWindow maxD p).2 - (capWindow maxD p).1 ≤ maxD := by
  unfold capWindow
  split
  · simp
  · rename_i h
    simpa using le_of_not_lt h

theorem capWindow_triggered (maxD : ℚ) (p : ℚ × ℚ) (h : maxD < p.2 - p.1) :
    (capWindow maxD p).2 = p.1 + maxD := by
  unfold capWindow
  rw [if_pos h]

theorem capWindow_untriggered (maxD : ℚ) (p : ℚ × ℚ) (h : ¬ maxD < p.2 - p.1) :
    capWindow maxD p = p := by
  unfold capWindow
  rw [if_neg h]

/-- The normalized window: duration at most the ceiling, and at least the floor
unless clamped at 0 or at the transcript end. -/
theorem normWindow_spec (segments : List Segment) (minD maxD s e : ℚ)
    (h : minD ≤ maxD) :
    (capWindow maxD (floorWindow segments minD s e)).2
        - (capWindow maxD (floorWindow segments minD s e)).1 ≤ maxD
    ∧ (minD ≤ (capWindow maxD (floorWindow segments minD s e)).2
          - (capWindow maxD (floorWindow segments minD s e)).1
        ∨ (capWindow maxD (floorWindow segments minD s e)).1 = 0
        ∨ (capWindow maxD (floorWindow segments minD s e)).2
            = lastStopOr segments (e + 30)) := by
  refine ⟨capWindow_diff_le maxD _, ?_⟩
  by_cases htrig : maxD < (floorWindow segments minD s e).2 - (floorWindow segments minD s e).1
  · left
    rw [capWindow_triggered maxD _ htrig, capWindow_fst]
    linarith
  · rw [capWindow_untriggered maxD _ htrig]
    exact floorWindow_spec segments minD s e

/-- The clip built from a moment, field by field. -/
theorem buildClip_fields (segments : List Segment) (minD maxD : ℚ) (m : Moment) :
    (buildClip segments minD maxD m).start
        = (capWindow maxD (floorWindow segments minD m.start m.stop)).1
    ∧ (buildClip segments minD maxD m).stop
        = (capWindow maxD (floorWindow segments minD m.start m.stop)).2
    ∧ (buildClip segments minD maxD m).duration
        = (buildClip segments minD maxD m).stop - (buildClip segments minD maxD m).start
    ∧ (buildClip segments minD maxD m).segments
        = segments.filter (segPred (buildClip segments minD maxD m).start
            (buildClip segments minD maxD m).stop)
    ∧ (buildClip segments minD maxD m).text
        = pyStrip (pyJoin " " ((buildClip segments minD maxD m).segments.map Segment.text))
    ∧ (buildClip segments minD maxD m).reason = m.reason :=
  ⟨rfl, rfl, rfl, rfl, rfl, rfl⟩

/-- `find_viral_moments` is the selector run on the scorer's moments (the
early return on an empty transcript coincides with the selector's output on
the then-empty moment list). -/
theorem findViralMoments_eq_selectClips (segments : List Segment) (minD maxD : ℚ) :
    findViralMoments segments minD maxD
      = selectClips segments minD maxD (scoreMoments segments) := by
  cases segments <;> rfl

/-- Every moment of the lexical-energy pass is tagged `high_energy`. -/
theorem energyMoments_reason (segments : List Segment) :
    ∀ m ∈ energyMoments segments, m.reason = Reason.high_energy := by
  intro m hm
  obtain ⟨seg, -, hseg⟩ := List.mem_filterMap.mp hm
  by_cases h : 2 ≤ energyScore seg
  · simp only [if_pos h] at hseg
    cases hseg
    rfl
  · rw [if_neg h] at hseg
    exact Option.noConfusion hseg

/-- The silence-gap pass, characterized over the adjacent pairs of the
transcript. -/
theorem gapMoments_eq_zip (segments : List Segment) :
    gapMoments segments = (segments.zip segments.tail).filterMap (fun p =>
      if 1 ≤ p.2.start - p.1.stop ∧ p.2.start - p.1.stop ≤ 3 then
        some { start := p.1.stop, stop := p.2.start, text := "[reaction moment]",
               energy_score := 1, reason := Reason.reaction_gap }
      else none) := by
  induction segments with
  | nil => rfl
  | cons a rest ih =>
    cases rest with
    | nil => rfl
    | cons b rest2 =>
      rw [gapMoments]
      rw [ih]
      simp only [List.tail_cons, List.zip_cons_cons, List.filterMap_cons]
      split <;> simp

/-- A `filterMap` by a guarded `some` is a `filter` followed by a `map`. -/
theorem filterMap_guard {α β : Type} (p : α → Bool) (f : α → β) (l : List α) :
    l.filterMap (fun x => if p x then some (f x) else none) = (l.filter p).map f := by
  induction l with
  | nil => rfl
  | cons a as ih =>
    by_cases h : p a
    · simp [List.filterMap_cons, List.filter_cons, h, ih]
    · simp [List.filterMap_cons, List.filter_cons, h, ih]

/-- The `_create_srt` loop over enumerated segments: the counter advances on
skipped segments too. -/
theorem createSrtAux_eq (off : ℚ) :
    ∀ (i : ℕ) (segs : List Segment),
      createSrtAux off i segs = (List.enumFrom i segs).filterMap (fun p =>
        if p.2.start - off < 0 ∨ pyStrip p.2.text = "" then none
        else some { idx := p.1, startStr := formatTime (p.2.start - off),
                    stopStr := formatTime (p.2.stop - off),
                    text := pyStrip p.2.text }) := by
  intro i segs
  induction segs generalizing i with
  | nil => rfl
  | cons seg rest ih =>
    rw [createSrtAux, List.enumFrom, List.filterMap_cons]
    by_cases h : seg.start - off < 0 ∨ pyStrip seg.text = ""
    · simp only [if_pos h, ih (i + 1)]
    · simp only [if_neg h, ih (i + 1)]

/-- The render loop collects exactly the windows with a successful outcome,
paired with their metadata, independently of other windows' outcomes. -/
theorem renderLoop_eq (ok : ℕ → Bool) (src : String) :
    ∀ (i : ℕ) (ws : List Clip),
      renderLoop ok src i ws = (List.enumFrom i ws).filterMap (fun p =>
        if ok p.1 then some (p.2, mkMeta src p.2) else none) := by
  intro i ws
  induction ws generalizing i with
  | nil => rfl
  | cons c rest ih =>
    rw [renderLoop, List.enumFrom, List.filterMap_cons]
    by_cases h : ok i
    · simp only [if_pos h, ih (i + 1)]
    · simp only [if_neg h, ih (i + 1)]

/-! The claims. -/

/-- C1 (amended): the lexical-energy pass scores each segment with one point
per configured energy phrase PRESENT in the lower-cased text (each phrase
counted once, however many times it occurs), plus 2 if the raw text contains
an exclamation mark, plus 1 if any configured laughter pattern is present;
it emits a `high_energy` Moment for exactly the segments whose score is >= 2,
with start, end and text copied verbatim and that score attached. -/
theorem scorer_presence_score (segments : List Segment) :
    energyMoments segments = segments.filterMap (fun seg =>
      if 2 ≤ presenceScore seg then
        some { start := seg.start, stop := seg.stop, text := seg.text,
               energy_score := presenceScore seg, reason := Reason.high_energy }
      else none) := by
  simp only [energyMoments, energyScore_eq_presenceScore]

/-- C1 counterexample: in `"wow wow wow"` the phrase `"wow"` occurs three
times, so the claimed per-occurrence score is 3 and a moment would be due; the
code counts each phrase once (score 1) and emits no moment. -/
theorem scorer_occurrence_counterexample :
    claimedOccurrenceScore ⟨0, 1, "wow wow wow"⟩ = 3
    ∧ energyScore ⟨0, 1, "wow wow wow"⟩ = 1
    ∧ energyMoments [⟨0, 1, "wow wow wow"⟩] = [] := by
  refine ⟨?_, ?_, ?_⟩ <;> with_unfolding_all rfl

/-- C2: the silence-gap pass emits a `reaction_gap` Moment for an adjacent
pair exactly when the gap lies in the closed interval [1, 3], with start and
end spanning the gap, text `"[reaction moment]"` and score 1; and two segments
separated by a 2-second gap produce exactly one `reaction_gap` Moment. -/
theorem reaction_gap_moments :
    (∀ segments : List Segment,
      gapMoments segments = (segments.zip segments.tail).filterMap (fun p =>
        if 1 ≤ p.2.start - p.1.stop ∧ p.2.start - p.1.stop ≤ 3 then
          some { start := p.1.stop, stop := p.2.start, text := "[reaction moment]",
                 energy_score := 1, reason := Reason.reaction_gap }
        else none))
    ∧ ∀ a b : Segment, b.start - a.stop = 2 →
        (scoreMoments [a, b]).filter (fun m => m.reason == Reason.reaction_gap)
          = [{ start := a.stop, stop := b.start, text := "[reaction moment]",
               energy_score := 1, reason := Reason.reaction_gap }] := by
  constructor
  · exact gapMoments_eq_zip
  · intro a b hgap
    unfold scoreMoments
    rw [List.filter_append]
    have h1 : (energyMoments [a, b]).filter
        (fun m => m.reason == Reason.reaction_gap) = [] := by
      rw [List.filter_eq_nil_iff]
      intro m hm
      rw [energyMoments_reason [a, b] m hm]
      simp
    have h2 : gapMoments [a, b]
        = [{ start := a.stop, stop := b.start, text := "[reaction moment]",
             energy_score := 1, reason := Reason.reaction_gap }] := by
      rw [gapMoments, hgap]
      norm_num [gapMoments]
    rw [h1, h2]
    simp

/-- C2 witness: segments ending at 1 and starting at 3 (gap 2) produce the one
reaction-gap moment spanning [1, 3]. -/
theorem reaction_gap_moments_witness :
    (scoreMoments [⟨0, 1, "x"⟩, ⟨3, 4, "y"⟩]).filter
        (fun m => m.reason == Reason.reaction_gap)
      = [{ start := 1, stop := 3, text := "[reaction moment]",
           energy_score := 1, reason := Reason.reaction_gap }] :=
  reaction_gap_moments.2 ⟨0, 1, "x"⟩ ⟨3, 4, "y"⟩ (by norm_num)

/-- C3: no two clip windows in the selector's final output overlap under the
source's closed-interval test (in either direction); the test counts windows
that merely touch at a boundary as overlapping; and overlap-rejected
candidates are dropped whole — every returned window is exactly the clip its
moment builds, never a trimmed one. -/
theorem selector_no_overlap :
    (∀ (segments : List Segment) (minD maxD : ℚ),
      List.Pairwise (fun c1 c2 => overlapsB c1.start c1.stop c2 = false
        ∧ overlapsB c2.start c2.stop c1 = false)
        (findViralMoments segments minD maxD))
    ∧ (∀ (s e : ℚ) (c : Clip), s ≤ e → c.start ≤ c.stop →
        (e = c.start ∨ s = c.stop) → overlapsB s e c = true)
    ∧ (∀ (segments : List Segment) (minD maxD : ℚ),
        ∃ acc : List Moment, List.Sublist acc (sortDesc (scoreMoments segments))
          ∧ findViralMoments segments minD maxD
              = acc.map (buildClip segments minD maxD)) := by
  refine ⟨?_, ?_, ?_⟩
  · intro segments minD maxD
    have base : List.Pairwise (fun c1 c2 => overlapsB c2.start c2.stop c1 = false)
        (findViralMoments segments minD maxD) := by
      rw [findViralMoments]
      split
      · exact List.Pairwise.nil
      · exact selectLoop_pairwise segments minD maxD _ [] List.Pairwise.nil
    refine base.imp ?_
    intro c1 c2 h1
    have h2 : overlapsB c1.start c1.stop c2 = false := by
      rw [overlapsB_false_iff] at h1 ⊢
      tauto
    exact ⟨h2, h1⟩
  · intro s e c hse hc hb
    cases hbool : overlapsB s e c with
    | true => rfl
    | false =>
      exfalso
      rcases (overlapsB_false_iff s e c).mp hbool with hlt | hlt <;>
        rcases hb with heq | heq <;> subst heq <;> linarith
  · intro segments minD maxD
    rw [findViralMoments_eq_selectClips, selectClips]
    obtain ⟨acc, hsub, heq⟩ := selectLoop_spec segments minD maxD
      (sortDesc (scoreMoments segments)) []
    exact ⟨acc, hsub, by simpa using heq⟩

/-- C3 witness: a candidate `[0, 5]` whose end exactly equals an accepted
window's start 5 is counted as overlapping by the source's test. -/
theorem selector_no_overlap_witness :
    overlapsB 0 5 ⟨5, 10, 5, "", [], Reason.high_energy⟩ = true :=
  selector_no_overlap.2.1 0 5 ⟨5, 10, 5, "", [], Reason.high_energy⟩
    (by norm_num) (by norm_num) (Or.inl rfl)

/-- C4: every returned window records `duration = end - start` and satisfies
`duration ≤ maxDuration`; `duration ≥ minDuration` holds unless the symmetric
extension was clamped at 0 (then `start = 0`) or at the last transcript
segment's end (then `end` equals that segment's end), the still-short window
being returned without further correction. The ceiling never moves the head:
it sets `end = start + maxDuration` exactly when it fires. -/
theorem selector_duration_bounds (segments : List Segment) (minD maxD : ℚ)
    (h : minD ≤ maxD) :
    (∀ c ∈ findViralMoments segments minD maxD,
      c.duration = c.stop - c.start
      ∧ c.duration ≤ maxD
      ∧ (minD ≤ c.duration ∨ c.start = 0 ∨
          ∃ last, segments.getLast? = some last ∧ c.stop = last.stop))
    ∧ ∀ p : ℚ × ℚ, (capWindow maxD p).1 = p.1
        ∧ (maxD < p.2 - p.1 → (capWindow maxD p).2 = p.1 + maxD) := by
  constructor
  · intro c hc
    by_cases hseg : segments.isEmpty
    · rw [findViralMoments, if_pos hseg] at hc
      exact absurd hc (List.not_mem_nil c)
    · rw [findViralMoments, if_neg hseg, selectClips] at hc
      obtain ⟨acc, hsub, heq⟩ := selectLoop_spec segments minD maxD
        (sortDesc (scoreMoments segments)) []
      rw [heq] at hc
      simp only [List.nil_append] at hc
      obtain ⟨m, hmem, rfl⟩ := List.mem_map.mp hc
      obtain ⟨hstart, hstop, hdur, -, -, -⟩ := buildClip_fields segments minD maxD m
      refine ⟨hdur, ?_, ?_⟩
      · rw [hdur, hstart, hstop]
        exact capWindow_diff_le maxD _
      · obtain ⟨-, hdisj⟩ := normWindow_spec segments minD maxD m.start m.stop h
        rcases hdisj with h1 | h1 | h1
        · left
          rw [hdur, hstart, hstop]
          exact h1
        · right; left
          rw [hstart]
          exact h1
        · right; right
          have hne : segments ≠ [] := by
            intro hnil
            rw [hnil] at hseg
            exact hseg rfl
          obtain ⟨last, hlast, hstopOr⟩ := lastStopOr_nonempty segments hne
          exact ⟨last, hlast, by rw [hstop, h1, hstopOr]⟩
  · intro p
    exact ⟨capWindow_fst maxD p, fun ht => capWindow_triggered maxD p ht⟩

/-- C4 witness: the sample transcript's clip, with `minDuration = 15` and
`maxDuration = 60`, has duration 2 ≤ 60 and was clamped at 0 (start = 0). -/
theorem selector_duration_bounds_witness :
    sampleClip.duration = sampleClip.stop - sampleClip.start
    ∧ sampleClip.duration ≤ 60
    ∧ ((15 : ℚ) ≤ sampleClip.duration ∨ sampleClip.start = 0 ∨
        ∃ last, [sampleSeg].getLast? = some last ∧ sampleClip.stop = last.stop) :=
  (selector_duration_bounds [sampleSeg] 15 60 (by norm_num)).1 sampleClip
    (by with_unfolding_all exact List.Mem.head [])

/-- C5: the selection (selector output truncated to `maxClips` by
`process_vod`) returns at most `maxClips` windows and at most one window per
supplied moment, and the returned windows are the clips of a subsequence of the
score-descending moment ordering — acceptance order is descending-score
processing order. -/
theorem selection_cap_and_order (segments : List Segment) (minD maxD : ℚ)
    (moments : List Moment) (k : ℕ) :
    ((selectClips segments minD maxD moments).take k).length ≤ k
    ∧ ((selectClips segments minD maxD moments).take k).length ≤ moments.length
    ∧ (∃ ms : List Moment, List.Sublist ms (sortDesc moments)
        ∧ List.Pairwise (fun a b => b.energy_score ≤ a.energy_score) ms
        ∧ (selectClips segments minD maxD moments).take k
            = ms.map (buildClip segments minD maxD))
    ∧ processVodSelect segments minD maxD k
        = (selectClips segments minD maxD (scoreMoments segments)).take k := by
  obtain ⟨acc, hsub, heq⟩ := selectLoop_spec segments minD maxD (sortDesc moments) []
  have hsel : selectClips segments minD maxD moments
      = acc.map (buildClip segments minD maxD) := by
    rw [selectClips, heq]
    simp
  refine ⟨?_, ?_, ?_, ?_⟩
  · rw [List.length_take]
    exact min_le_left _ _
  · calc ((selectClips segments minD maxD moments).take k).length
        ≤ (selectClips segments minD maxD moments).length := by
          rw [List.length_take]; exact min_le_right _ _
      _ = acc.length := by rw [hsel, List.length_map]
      _ ≤ (sortDesc moments).length := hsub.length_le
      _ = moments.length := sortDesc_length moments
  · refine ⟨acc.take k, (List.take_sublist k acc).trans hsub,
      (sortDesc_pairwise moments).sublist ((List.take_sublist k acc).trans hsub), ?_⟩
    rw [hsel, List.map_take]
  · rw [processVodSelect, findViralMoments_eq_selectClips]

/-- C6: every accepted window's `segments` field is the transcript filtered by
the lookup predicate `start ≤ s.start ≤ end OR start ≤ s.end ≤ end` over the
window's final bounds, in transcript order, and its `text` is the space-joined,
stripped concatenation of those segments' texts. -/
theorem window_segments_and_text (segments : List Segment) (minD maxD : ℚ) :
    ∀ c ∈ findViralMoments segments minD maxD,
      c.segments = segments.filter (segPred c.start c.stop)
      ∧ c.text = pyStrip (pyJoin " " (c.segments.map Segment.text))
      ∧ ∀ s : Segment, segPred c.start c.stop s = true ↔
          ((c.start ≤ s.start ∧ s.start ≤ c.stop)
            ∨ (c.start ≤ s.stop ∧ s.stop ≤ c.stop)) := by
  intro c hc
  rw [findViralMoments_eq_selectClips, selectClips] at hc
  obtain ⟨acc, hsub, heq⟩ := selectLoop_spec segments minD maxD
    (sortDesc (scoreMoments segments)) []
  rw [heq] at hc
  simp only [List.nil_append] at hc
  obtain ⟨m, hmem, rfl⟩ := List.mem_map.mp hc
  obtain ⟨-, -, -, hsegs, htext, -⟩ := buildClip_fields segments minD maxD m
  refine ⟨hsegs, htext, ?_⟩
  intro s
  rw [segPred, decide_eq_true_eq]

/-- C6 witness: the sample clip's segments are the filtered transcript and its
text the joined, stripped segment texts; the predicate instantiates as stated
on the sample segment. -/
theorem window_segments_and_text_witness :
    sampleClip.segments = [sampleSeg].filter (segPred sampleClip.start sampleClip.stop)
    ∧ sampleClip.text = pyStrip (pyJoin " " (sampleClip.segments.map Segment.text))
    ∧ (segPred sampleClip.start sampleClip.stop sampleSeg = true ↔
        ((sampleClip.start ≤ sampleSeg.start ∧ sampleSeg.start ≤ sampleClip.stop)
          ∨ (sampleClip.start ≤ sampleSeg.stop ∧ sampleSeg.stop ≤ sampleClip.stop))) :=
  ⟨(window_segments_and_text [sampleSeg] 15 60 sampleClip
      (by with_unfolding_all exact List.Mem.head [])).1,
   (window_segments_and_text [sampleSeg] 15 60 sampleClip
      (by with_unfolding_all exact List.Mem.head [])).2.1,
   (window_segments_and_text [sampleSeg] 15 60 sampleClip
      (by with_unfolding_all exact List.Mem.head [])).2.2 sampleSeg⟩

/-- C7 (amended): with subtitles on, the subtitle track contains exactly the
window's segments re-based by subtracting the window start, omitting every
segment whose re-based start is negative or whose stripped text is empty,
each block carrying formatted HH:MM:SS,mmm re-based boundary timestamps; but
blocks are numbered by their segment's 1-based position in the window's
segment list — a skipped segment still consumes a number, so the emitted
numbering can have gaps rather than running 1, 2, 3, … -/
theorem srt_blocks (segments : List Segment) (off : ℚ) :
    createSrt segments off = (List.enumFrom 1 segments).filterMap (fun p =>
      if p.2.start - off < 0 ∨ pyStrip p.2.text = "" then none
      else some { idx := p.1, startStr := formatTime (p.2.start - off),
                  stopStr := formatTime (p.2.stop - off),
                  text := pyStrip p.2.text }) :=
  createSrtAux_eq off 1 segments

/-- C7 counterexample: a window at offset 5 whose first segment starts at 3 is
skipped, and the single emitted block is numbered 2 — not the gap-free
1, 2, 3, … numbering the claim states (which would be [1] here). -/
theorem srt_numbering_counterexample :
    (createSrt [⟨3, 4, "a"⟩, ⟨6, 7, "b"⟩] 5).map SrtBlock.idx = [2]
    ∧ List.range' 1 (createSrt [⟨3, 4, "a"⟩, ⟨6, 7, "b"⟩] 5).length = [1]
    ∧ ([2] : List ℕ) ≠ [1] := by
  refine ⟨?_, ?_, ?_⟩
  · with_unfolding_all rfl
  · with_unfolding_all rfl
  · decide

/-- C8 (amended): on the one-segment transcript
`{start: 10, end: 12, text: "holy that was insane!"}` with `minDuration = 15`
and `maxDuration = 60`, the scorer assigns energy score 4 (1 for "insane",
1 for "holy", 2 for the exclamation mark), emits exactly one high_energy
Moment, and the selector returns exactly one ClipWindow spanning [3.5, 12]:
the symmetric extension clamps at the transcript end 12, leaving an
8.5-second window. -/
theorem scenario_one_segment :
    energyScore ⟨10, 12, "holy that was insane!"⟩ = 4
    ∧ energyMoments [⟨10, 12, "holy that was insane!"⟩]
        = [⟨10, 12, "holy that was insane!", 4, Reason.high_energy⟩]
    ∧ findViralMoments [⟨10, 12, "holy that was insane!"⟩] 15 60
        = [⟨7/2, 12, 17/2, "holy that was insane!",
            [⟨10, 12, "holy that was insane!"⟩], Reason.high_energy⟩] := by
  refine ⟨?_, ?_, ?_⟩ <;> with_unfolding_all rfl

/-- C8 counterexample: the claimed score 3 is wrong ("holy" also counts, the
code computes 4), and the produced window is [3.5, 12], not roughly
[8.5, 15.5]. -/
theorem scenario_one_segment_counterexample :
    energyScore ⟨10, 12, "holy that was insane!"⟩ ≠ 3
    ∧ (findViralMoments [⟨10, 12, "holy that was insane!"⟩] 15 60).map
        (fun c => (c.start, c.stop)) = [(7/2, 12)]
    ∧ ((7/2 : ℚ), (12 : ℚ)) ≠ ((17/2 : ℚ), (31/2 : ℚ)) := by
  refine ⟨?_, ?_, ?_⟩
  · have h4 : energyScore ⟨10, 12, "holy that was insane!"⟩ = 4 := by
      with_unfolding_all rfl
    rw [h4]
    decide
  · with_unfolding_all rfl
  · intro hpair
    rw [Prod.mk.injEq] at hpair
    have := hpair.1
    norm_num at this

/-- C9: render failures are isolated per window — the pipeline's loop visits
every selected window in order and its output collects exactly the windows
whose own render succeeded, each paired with its metadata sidecar,
independently of the other windows' outcomes; the job status is `failed`
exactly when that collection is empty. -/
theorem render_failure_isolation (ok : ℕ → Bool) (src : String) (ws : List Clip) :
    renderLoop ok src 0 ws
        = (ws.enum.filter (fun p => ok p.1)).map (fun p => (p.2, mkMeta src p.2))
    ∧ (jobStatus (renderLoop ok src 0 ws) = JobStatus.failed
        ↔ renderLoop ok src 0 ws = []) := by
  constructor
  · rw [renderLoop_eq ok src 0 ws]
    exact filterMap_guard (fun p => ok p.1) (fun p => (p.2, mkMeta src p.2)) ws.enum
  · rw [jobStatus]
    split <;> rename_i hempty
    · simp [List.isEmpty_iff.mp hempty]
    · constructor
      · intro hc
        exact absurd hc (by simp)
      · intro hnil
        rw [hnil] at hempty
        exact absurd rfl hempty

/-- C10: the scorer's phrase lists and exclamation weight are hard-coded in
`find_viral_moments`; no source file imports `config.py`, so any two states of
the configuration module's `ENERGY_WORDS`, `LAUGHTER_PATTERNS` and
`EXCLAMATION_WEIGHT` yield identical moment and clip output on the same
transcript. -/
theorem config_independence :
    (∀ (cfg : DetectionConfig) (segments : List Segment) (minD maxD : ℚ),
      findViralMomentsWithConfig cfg segments minD maxD
        = findViralMomentsWithConfig defaultDetectionConfig segments minD maxD)
    ∧ ∀ (cfg1 cfg2 : DetectionConfig) (segments : List Segment) (minD maxD : ℚ),
        findViralMomentsWithConfig cfg1 segments minD maxD
          = findViralMomentsWithConfig cfg2 segments minD maxD :=
  ⟨fun _ _ _ _ => rfl, fun _ _ _ _ _ => rfl⟩

